import Mathlib

set_option maxRecDepth 40000

/-
  Verification of src/image/raspbian/init.c (TNG Base Raspberry Pi CMX initramfs init).

  The C program is embedded shallowly: each C function that the claims are about is
  translated into an executable Lean definition over Nat byte values and Char lists,
  with byte-addressable device state, file state and syscall outcomes made explicit
  parameters.  Machine integers are Nat; the only arithmetic the C code performs on
  them (CRC-32 shifts/xors, little-endian assembly) never overflows 32 bits.
-/

/- ===== CRC-32 (zlib crc32, reflected polynomial 0xEDB88320) =====
   init.c uses zlib's crc32: seeded by crc32(0, Z_NULL, 0) = 0 and then updated
   incrementally.  crc32z models one crc32(crc, buf, len) call: pre- and
   post-conditioning with 0xFFFFFFFF around a byte-wise fold. -/

def crcPoly : Nat := 0xEDB88320

def crcBits : Nat → Nat → Nat
  | 0, c => c
  | n + 1, c => crcBits n (if c % 2 = 1 then (c / 2) ^^^ crcPoly else c / 2)

def crcByte (c b : Nat) : Nat := crcBits 8 (c ^^^ b)

def crc32z (c : Nat) (bs : List Nat) : Nat :=
  (bs.foldl crcByte (c ^^^ 0xFFFFFFFF)) ^^^ 0xFFFFFFFF

/- Chaining two crc32 calls is the same as one call on the concatenation. -/
theorem crc32z_append (c : Nat) (xs ys : List Nat) :
    crc32z (crc32z c xs) ys = crc32z c (xs ++ ys) := by
  unfold crc32z
  rw [Nat.xor_cancel_right, List.foldl_append]

/- ===== read_eeprom (init.c lines 507-637) =====

   The EEPROM is modelled as the sequence of bytes `dev` that successive
   single-byte i2c_read8 calls deliver, starting at device address 0; an I/O
   error at address k is modelled by `dev` having length k (every functional
   claim treats a failed read as "stream ends here", and the C code returns
   with eeprom_valid = false in that case).

   `buf0` models the initial (indeterminate) contents of the stack union
   `u.bytes` (sizeof(EEPROM) = 450: 11 header bytes + 439 EEPROM_DataV1 bytes).
   Data bytes at addresses >= sizeof(EEPROM) are checksummed but written to the
   scratch variable `byte` only, never stored (line 586).

   Field layout (packed, little-endian ARM):
     header:  magic_number bytes 0-3, checksum bytes 4-7, data_length bytes 8-9,
              data_version byte 10
     data_v1: production_date bytes 11-14, uid bytes 15-21, hostname bytes 22-86,
              encrypted_password bytes 87-193, ethernet_config bytes 194-449.

   The result is `none` when the C code leaves eeprom_valid = false, and
   `some finalBuffer` when it copies the union into the global and sets
   eeprom_valid = true. -/

def le16 (b0 b1 : Nat) : Nat := b0 + b1 * 256

def le32 (b0 b1 b2 b3 : Nat) : Nat := b0 + b1 * 256 + b2 * 65536 + b3 * 16777216

def EEPROM_MAGIC_NUMBER : Nat := 0x21474E54

def sizeofHeader : Nat := 11

def sizeofDataV1 : Nat := 439

def sizeofEEPROM : Nat := 450

def eepromDataLength (dev : List Nat) : Nat := le16 (dev.getD 8 0) (dev.getD 9 0)

def eepromDataVersion (dev : List Nat) : Nat := dev.getD 10 0

def eepromStoredChecksum (dev : List Nat) : Nat :=
  le32 (dev.getD 4 0) (dev.getD 5 0) (dev.getD 6 0) (dev.getD 7 0)

/- The union contents after the read loops: header bytes as read, then the data
   bytes clamped to the struct size, then the untouched remainder of the
   indeterminate initial buffer. -/
def eepromBuffer (dev buf0 : List Nat) : List Nat :=
  dev.take sizeofHeader ++ ((dev.drop sizeofHeader).take (eepromDataLength dev)).take sizeofDataV1
    ++ buf0.drop (sizeofHeader + min (eepromDataLength dev) sizeofDataV1)

def read_eeprom (dev buf0 : List Nat) : Option (List Nat) :=
  -- header read loop, lines 552-560: an I/O error inside the header aborts
  if dev.length < sizeofHeader then none
  -- magic number check, line 562
  else if le32 (dev.getD 0 0) (dev.getD 1 0) (dev.getD 2 0) (dev.getD 3 0) ≠ EEPROM_MAGIC_NUMBER
    then none
  -- data read loop, lines 577-591: an I/O error inside the data aborts
  else if dev.length < sizeofHeader + eepromDataLength dev then none
  -- checksum check, line 598: crc32 over data_length bytes, data_version byte, data bytes
  else if eepromStoredChecksum dev ≠
      crc32z (crc32z (crc32z 0 [dev.getD 8 0, dev.getD 9 0]) [dev.getD 10 0])
        ((dev.drop sizeofHeader).take (eepromDataLength dev)) then none
  -- data_version check, line 604
  else if eepromDataVersion dev < 1 then none
  -- data_length check for version 1, line 610
  else if eepromDataVersion dev = 1 ∧ eepromDataLength dev < sizeofDataV1 then none
  -- null-terminator checks on uid, hostname, encrypted_password, lines 616-632
  else if (eepromBuffer dev buf0).getD 21 0 ≠ 0 then none
  else if (eepromBuffer dev buf0).getD 86 0 ≠ 0 then none
  else if (eepromBuffer dev buf0).getD 193 0 ≠ 0 then none
  -- memcpy into the global + eeprom_valid = true, lines 634-636
  else some (eepromBuffer dev buf0)

/- Concrete device streams used to evaluate read_eeprom on closed inputs. -/

/- A record with data_version = 2 and data_length = 0 (shorter than the 439-byte
   version-1 struct) whose stored checksum matches crc32 over {0x0000, 0x02}. -/
def shortV2Dev : List Nat := [0x54, 0x4E, 0x47, 0x21, 0x3E, 0xB8, 0x4F, 0x11, 0, 0, 2]

/- A record with data_version = 2 and data_length = 3, payload bytes 7,7,7, with
   matching stored checksum. -/
def smallV2Dev : List Nat :=
  [0x54, 0x4E, 0x47, 0x21, 0x67, 0x0E, 0x35, 0x49, 3, 0, 2] ++ [7, 7, 7]

/-- C1 (counterexample): the claim says every record whose data_length is shorter
than the version-1 payload size is marked absent regardless of data_version; but
the code guards the length check with data_version == 1 (init.c line 610), so a
checksum-valid record with data_version = 2 and data_length = 0 is accepted. -/
theorem read_eeprom_accepts_short_non_v1_record :
    eepromDataLength shortV2Dev < sizeofDataV1 ∧
    read_eeprom shortV2Dev (List.replicate 450 0) = some (shortV2Dev ++ List.replicate 439 0) := by
  decide

/-- C1 (amended): for every device stream and initial buffer, if the record's
data_version is less than 1, or its data_version equals 1 and its data_length is
shorter than the version-1 payload structure size, read_eeprom marks the record
absent (returns none), never a partially populated record value. -/
theorem read_eeprom_rejects_bad_version_or_short_v1 (dev buf0 : List Nat)
    (h : eepromDataVersion dev < 1 ∨
         (eepromDataVersion dev = 1 ∧ eepromDataLength dev < sizeofDataV1)) :
    read_eeprom dev buf0 = none := by
  unfold read_eeprom
  repeat' split <;> try rfl
  exfalso
  omega

/-- C1 (witness): the amended rejection theorem applied to a concrete version-0
record. -/
theorem read_eeprom_rejects_bad_version_or_short_v1_witness :
    (eepromDataVersion [0, 0, 0, 0, 0, 0, 0, 0, 0, 0, 0] < 1 ∨
      (eepromDataVersion [0, 0, 0, 0, 0, 0, 0, 0, 0, 0, 0] = 1 ∧
       eepromDataLength [0, 0, 0, 0, 0, 0, 0, 0, 0, 0, 0] < sizeofDataV1)) ∧
    read_eeprom [0, 0, 0, 0, 0, 0, 0, 0, 0, 0, 0] [] = none :=
  ⟨Or.inl (by decide),
   read_eeprom_rejects_bad_version_or_short_v1 _ [] (Or.inl (by decide))⟩

/-- C2: for every record that read_eeprom marks valid, the stored header checksum
equals the CRC-32 (seeded with the empty-stream CRC, i.e. zlib crc32(0,Z_NULL,0))
accumulated over the 2-byte data_length, the 1-byte data_version, and all
data_length payload bytes in order — including any bytes beyond the version-1
structure size — while the stored record itself is always exactly sizeof(EEPROM)
= 450 bytes, so excess checksummed bytes are never stored in the record. -/
theorem read_eeprom_valid_checksum_structure (dev buf0 r : List Nat)
    (hbuf : buf0.length = sizeofEEPROM) (h : read_eeprom dev buf0 = some r) :
    eepromStoredChecksum dev =
      crc32z 0 ([dev.getD 8 0, dev.getD 9 0, dev.getD 10 0]
        ++ (dev.drop sizeofHeader).take (eepromDataLength dev)) ∧
    r.length = sizeofEEPROM := by
  unfold read_eeprom at h
  repeat' split at h
  all_goals try exact Option.noConfusion h
  rename_i hlen hmagic hdata hck hver hv1 hu hh hp
  refine ⟨?_, ?_⟩
  · rw [ne_eq, not_not] at hck
    rw [hck, crc32z_append, crc32z_append]
    rfl
  · have hr : r = eepromBuffer dev buf0 := by
      injection h with h'
      exact h'.symm
    subst hr
    unfold eepromBuffer
    simp only [List.length_append, List.length_take, List.length_drop, hbuf]
    unfold sizeofHeader sizeofDataV1 sizeofEEPROM at *
    omega

/-- C2 (witness): the checksum-structure theorem applied to a concrete valid
record (data_version 2, data_length 3, payload 7,7,7). -/
theorem read_eeprom_valid_checksum_structure_witness :
    (List.replicate 450 0 : List Nat).length = sizeofEEPROM ∧
    read_eeprom smallV2Dev (List.replicate 450 0) =
      some (smallV2Dev.take 11 ++ [7, 7, 7] ++ List.replicate 436 0) ∧
    (eepromStoredChecksum smallV2Dev =
      crc32z 0 ([smallV2Dev.getD 8 0, smallV2Dev.getD 9 0, smallV2Dev.getD 10 0]
        ++ (smallV2Dev.drop sizeofHeader).take (eepromDataLength smallV2Dev)) ∧
     (smallV2Dev.take 11 ++ [7, 7, 7] ++ List.replicate 436 0).length = sizeofEEPROM) :=
  ⟨by decide, by decide,
   read_eeprom_valid_checksum_structure smallV2Dev (List.replicate 450 0) _
     (by decide) (by decide)⟩

/-- C8: for every record whose uid (bytes 15-21), hostname (bytes 22-86) or
encrypted_password (bytes 87-193) field contains no null terminator anywhere in
its fixed capacity, read_eeprom marks the record absent (returns none); in
particular this holds for records passing the magic, checksum, version and
length checks. -/
theorem read_eeprom_rejects_unterminated_fields (dev buf0 : List Nat)
    (h : (∀ i, i < 7 → (eepromBuffer dev buf0).getD (15 + i) 0 ≠ 0)
       ∨ (∀ i, i < 65 → (eepromBuffer dev buf0).getD (22 + i) 0 ≠ 0)
       ∨ (∀ i, i < 107 → (eepromBuffer dev buf0).getD (87 + i) 0 ≠ 0)) :
    read_eeprom dev buf0 = none := by
  unfold read_eeprom
  repeat' split <;> try rfl
  exfalso
  rcases h with h | h | h
  · have h21 : (eepromBuffer dev buf0).getD 21 0 ≠ 0 := by
      have := h 6 (by omega)
      simpa using this
    omega
  · have h86 : (eepromBuffer dev buf0).getD 86 0 ≠ 0 := by
      have := h 64 (by omega)
      simpa using this
    omega
  · have h193 : (eepromBuffer dev buf0).getD 193 0 ≠ 0 := by
      have := h 106 (by omega)
      simpa using this
    omega

/-- C8 (witness): the unterminated-field rejection theorem applied to a concrete
record whose uid bytes are all nonzero. -/
theorem read_eeprom_rejects_unterminated_fields_witness :
    (∀ i, i < 7 →
      (eepromBuffer [0, 0, 0, 0, 0, 0, 0, 0, 0, 0, 0] (List.replicate 450 7)).getD (15 + i) 0 ≠ 0) ∧
    read_eeprom [0, 0, 0, 0, 0, 0, 0, 0, 0, 0, 0] (List.replicate 450 7) = none :=
  ⟨by decide,
   read_eeprom_rejects_unterminated_fields _ _ (Or.inl (by decide))⟩

/- ===== replace_password (init.c lines 639-827) =====

   The shadow file content is modelled as the list of its bytes (chars); the C
   code NUL-terminates its heap buffer, so out-of-range reads yield the NUL
   character, modelled by getD with default nulChar.  The C string helpers
   strchr/strrchr/strstr are modelled as index-returning scans.  crypt_r is an
   external one-way hash; it is passed in as `cryptFn` (returning none when
   crypt_r returns NULL).  The result abstracts the observable file-system
   effect: `skip` (no file touched, no backup), `replaced backup newContent`
   (backup written to /etc/shadow- with exactly the original bytes, then the
   temp file with the new content renamed onto /etc/shadow), or `fatal`
   (panic, which never returns). -/

def nulChar : Char := Char.ofNat 0

def strchrIdx : List Char → Char → Option Nat
  | [], _ => none
  | c :: rest, ch => if c = ch then some 0 else (strchrIdx rest ch).map (· + 1)

def strrchrIdx : List Char → Char → Option Nat
  | [], _ => none
  | c :: rest, ch =>
    match strrchrIdx rest ch with
    | some j => some (j + 1)
    | none => if c = ch then some 0 else none

def strstrIdx : List Char → List Char → Option Nat
  | [], nee => if nee = [] then some 0 else none
  | c :: rest, nee =>
    if nee.isPrefixOf (c :: rest) then some 0
    else (strstrIdx rest nee).map (· + 1)

def strchrFrom (s : List Char) (i : Nat) (ch : Char) : Option Nat :=
  (strchrIdx (s.drop i) ch).map (· + i)

def defaultPassword : List Char := "default-tng-password".toList

def SHADOW_BUFFER_LENGTH : Nat := 524288

def SHADOW_ENCRYPTED_LENGTH : Nat := 512

/- Entry lookup, lines 709-721: the account entry is either at the start of the
   buffer or right after a newline. -/
def findEntry (s : List Char) : Option Nat :=
  if ("tng:".toList).isPrefixOf s then some 0
  else (strstrIdx s ("\ntng:".toList)).map (· + 1)

/- Salt extraction, lines 760-779: if the hash value does not begin with '$',
   the salt is its first two characters (salt_used = 2); otherwise salt_used =
   strrchr(encrypted,'$') - encrypted, the index of the LAST '$', so the salt
   is everything strictly before that last '$'.  none models the
   panic on the (unreachable) strrchr NULL. -/
def extractSalt (encd : List Char) : Option (List Char) :=
  if encd.getD 0 nulChar ≠ '$' then some (encd.take 2)
  else
    match strrchrIdx encd '$' with
    | none => none
    | some i => some (encd.take i)

inductive PwAction where
  | skip
  | replaced (backup newContent : List Char)
  | fatal
deriving DecidableEq

def replace_password (shadow pwd : List Char)
    (cryptFn : List Char → List Char → Option (List Char)) : PwAction :=
  -- size check, line 678
  if SHADOW_BUFFER_LENGTH < shadow.length then .fatal
  else
    match findEntry shadow with
    | none => .skip                         -- account not present, line 715
    | some e =>
      match strchrFrom shadow e ':' with
      | none => .fatal                      -- malformed, line 727
      | some colonIdx =>
        let cb := colonIdx + 1              -- encrypted_begin, line 730
        if shadow.getD cb nulChar = '*' then .skip          -- line 732
        else if shadow.getD cb nulChar ≠ '!' then .skip     -- line 738
        else
          match strchrFrom shadow cb ':' with
          | none => .fatal                  -- malformed, line 747
          | some ee =>                      -- encrypted_end
            let used := ee - (cb + 1)
            if SHADOW_ENCRYPTED_LENGTH < used then .fatal   -- line 753
            else if used < 2 then .fatal                    -- line 762
            else
              let encd := (shadow.drop (cb + 1)).take used
              match extractSalt encd with
              | none => .fatal              -- line 771
              | some salt =>
                match cryptFn defaultPassword salt with
                | none => .fatal            -- line 785
                | some res =>
                  if res ≠ encd then .skip  -- not the default password, line 788
                  else
                    -- backup write, lines 797-804; splice, lines 807-811;
                    -- rename, line 821
                    .replaced shadow (shadow.take cb ++ pwd ++ shadow.drop ee)

/- Helper lemmas about the string scans. -/

theorem getD_drop_eq (l : List Char) (n i : Nat) (d : Char) :
    (l.drop n).getD i d = l.getD (n + i) d := by
  induction l generalizing n with
  | nil => simp [List.getD]
  | cons c rest ih =>
    cases n with
    | zero => simp
    | succ m =>
      simp only [List.drop_succ_cons]
      rw [ih]
      have hidx : m + 1 + i = (m + i) + 1 := by omega
      rw [hidx, List.getD_cons_succ]

theorem strchrIdx_cons_ne (c ch : Char) (rest : List Char) (hne : c ≠ ch) :
    strchrIdx (c :: rest) ch = (strchrIdx rest ch).map (· + 1) := by
  simp [strchrIdx, hne]

theorem strchrIdx_append_term (pre t : List Char) (ch : Char)
    (hpre : ∀ c ∈ pre, c ≠ ch) : strchrIdx (pre ++ ch :: t) ch = some pre.length := by
  induction pre with
  | nil => simp [strchrIdx]
  | cons c rest ih =>
    have hc : c ≠ ch := hpre c (by simp)
    rw [List.cons_append, strchrIdx_cons_ne c ch _ hc,
      ih (fun x hx => hpre x (by simp [hx]))]
    simp

theorem strrchrIdx_of_no_occ (l : List Char) (ch : Char)
    (h : ∀ j, j < l.length → l.getD j nulChar ≠ ch) : strrchrIdx l ch = none := by
  induction l with
  | nil => rfl
  | cons c rest ih =>
    have hrest : strrchrIdx rest ch = none := by
      apply ih
      intro j hj
      have := h (j + 1) (by simpa using hj)
      simpa using this
    have hc : c ≠ ch := by
      have := h 0 (by simp)
      simpa using this
    simp [strrchrIdx, hrest, hc]

theorem strrchrIdx_last (l : List Char) (ch : Char) (k : Nat)
    (hk : k < l.length) (hkc : l.getD k nulChar = ch)
    (hafter : ∀ j, j < l.length → k < j → l.getD j nulChar ≠ ch) :
    strrchrIdx l ch = some k := by
  induction l generalizing k with
  | nil => simp at hk
  | cons c rest ih =>
    cases k with
    | zero =>
      have hc : c = ch := by simpa using hkc
      have hrest : strrchrIdx rest ch = none := by
        apply strrchrIdx_of_no_occ
        intro j hj
        have := hafter (j + 1) (by simpa using hj) (by omega)
        simpa using this
      simp [strrchrIdx, hrest, hc]
    | succ m =>
      have hrest : strrchrIdx rest ch = some m := by
        apply ih
        · simpa using hk
        · simpa using hkc
        · intro j hj hmj
          have := hafter (j + 1) (by simpa using hj) (by omega)
          simpa using this
      simp [strrchrIdx, hrest]

/-- C3 (counterexample): the claim says that when the locked hash value begins
with '$', the salt runs up to and INCLUDING the last '$'; but salt_used =
strrchr(encrypted,'$') - encrypted (init.c line 774) counts only the characters
strictly before the last '$', so for hash value "$1$ab" the salt is "$1", not
"$1$". -/
theorem extractSalt_excludes_last_delim :
    extractSalt ("$1$ab".toList) = some ("$1".toList) ∧
    extractSalt ("$1$ab".toList) ≠ some (("$1$ab".toList).take 3) := by
  decide

/-- C3 (amended): in replace_password, when the locked hash value does not begin
with the scheme-tag delimiter '$', the salt passed to the one-way hash function
is exactly its first two characters; when it does begin with '$', the salt runs
up to but NOT including the last '$' delimiter (characterized here as any
position k holding '$' with no '$' strictly after it). -/
theorem extractSalt_spec (e : List Char) (_hlen : 2 ≤ e.length) :
    (e.getD 0 nulChar ≠ '$' → extractSalt e = some (e.take 2)) ∧
    (e.getD 0 nulChar = '$' → ∀ k, k < e.length → e.getD k nulChar = '$' →
      (∀ j, j < e.length → k < j → e.getD j nulChar ≠ '$') →
      extractSalt e = some (e.take k)) := by
  constructor
  · intro h
    unfold extractSalt
    rw [if_pos h]
  · intro h k hk hkc hafter
    unfold extractSalt
    rw [if_neg (not_not_intro h), strrchrIdx_last e '$' k hk hkc hafter]

/-- C3 (witness): the amended salt theorem applied to the concrete hash value
"$1$ab", whose last '$' sits at index 2, yielding salt "$1". -/
theorem extractSalt_spec_witness :
    2 ≤ ("$1$ab".toList).length ∧
    extractSalt ("$1$ab".toList) = some (("$1$ab".toList).take 2) :=
  ⟨by decide,
   (extractSalt_spec ("$1$ab".toList) (by decide)).2 (by decide) 2 (by decide)
     (by decide) (by decide)⟩

/-- C4: for every shadow file whose located account entry is
"tng:!(hash):(rest)" with the hash free of colons, of valid length, and whose
salt-hashed default password comparison is given by cryptFn: when the hash
equals the one-way hash of the fixed default password under the extracted salt,
replace_password writes a backup whose bytes are identical to the original file
and produces a file in which only the "!(hash)" span is replaced by the
record's encrypted_password with every other byte preserved; when the hash
differs, the shadow file is left untouched and no backup is created. -/
theorem replace_password_migrates_default (shadow pwd h rest salt res : List Char)
    (cryptFn : List Char → List Char → Option (List Char)) (e : Nat)
    (hsize : shadow.length ≤ SHADOW_BUFFER_LENGTH)
    (hfind : findEntry shadow = some e)
    (hdecomp : shadow.drop e = 't' :: 'n' :: 'g' :: ':' :: '!' :: (h ++ ':' :: rest))
    (hnc : ∀ c ∈ h, c ≠ ':')
    (hlen2 : 2 ≤ h.length) (hlen512 : h.length ≤ SHADOW_ENCRYPTED_LENGTH)
    (hsalt : extractSalt h = some salt)
    (hcrypt : cryptFn defaultPassword salt = some res) :
    (res = h → replace_password shadow pwd cryptFn =
      .replaced shadow (shadow.take (e + 4) ++ pwd ++ shadow.drop (e + 5 + h.length))) ∧
    (res ≠ h → replace_password shadow pwd cryptFn = .skip) := by
  have hsz : ¬(SHADOW_BUFFER_LENGTH < shadow.length) := by omega
  have h1 : strchrFrom shadow e ':' = some (e + 3) := by
    unfold strchrFrom
    rw [hdecomp]
    rw [strchrIdx_cons_ne _ _ _ (by decide), strchrIdx_cons_ne _ _ _ (by decide),
      strchrIdx_cons_ne _ _ _ (by decide)]
    have : strchrIdx (':' :: '!' :: (h ++ ':' :: rest)) ':' = some 0 := by
      simp [strchrIdx]
    rw [this]
    simp
    omega
  have hdrop4 : shadow.drop (e + 3 + 1) = '!' :: (h ++ ':' :: rest) := by
    show shadow.drop (e + 4) = _
    rw [← List.drop_drop 4 e shadow, hdecomp]
    rfl
  have hbang : shadow.getD (e + 3 + 1) nulChar = '!' := by
    show shadow.getD (e + 4) nulChar = '!'
    rw [← getD_drop_eq shadow e 4 nulChar, hdecomp]
    rfl
  have hstar : ¬(shadow.getD (e + 3 + 1) nulChar = '*') := by
    rw [hbang]
    decide
  have hbne : ¬(shadow.getD (e + 3 + 1) nulChar ≠ '!') := by
    rw [hbang]
    simp
  have h2 : strchrFrom shadow (e + 3 + 1) ':' = some (e + 5 + h.length) := by
    unfold strchrFrom
    rw [hdrop4, strchrIdx_cons_ne _ _ _ (by decide),
      strchrIdx_append_term h rest ':' hnc]
    simp
    omega
  have hused : e + 5 + h.length - (e + 3 + 1 + 1) = h.length := by omega
  have hle : ¬(SHADOW_ENCRYPTED_LENGTH < h.length) := by omega
  have hge2 : ¬(h.length < 2) := by omega
  have hdrop5 : shadow.drop (e + 3 + 1 + 1) = h ++ ':' :: rest := by
    show shadow.drop (e + 5) = _
    rw [← List.drop_drop 5 e shadow, hdecomp]
    rfl
  have hencd : (shadow.drop (e + 3 + 1 + 1)).take h.length = h := by
    rw [hdrop5]
    exact List.take_left h (':' :: rest)
  rw [replace_password, if_neg hsz, hfind]
  simp only [h1, hbang]
  rw [if_neg (show ¬('!' = '*') by decide), if_neg (show ¬('!' ≠ '!') by decide)]
  simp only [h2, hused, if_neg hle, if_neg hge2, hencd, hsalt, hcrypt]
  constructor
  · intro hres
    rw [if_neg (not_not_intro hres)]
  · intro hres
    rw [if_pos hres]

/-- C4 (witness): the migration theorem applied to the concrete shadow file
"tng:!ab:x" with a crypt function mapping the default password to hash "ab":
the backup is the original file and the entry becomes "tng:NEW:x". -/
theorem replace_password_migrates_default_witness :
    findEntry ("tng:!ab:x".toList) = some 0 ∧
    replace_password ("tng:!ab:x".toList) ("NEW".toList) (fun _ _ => some ("ab".toList)) =
      .replaced ("tng:!ab:x".toList)
        (("tng:!ab:x".toList).take (0 + 4) ++ "NEW".toList ++
          ("tng:!ab:x".toList).drop (0 + 5 + ("ab".toList).length)) :=
  ⟨by decide,
   (replace_password_migrates_default ("tng:!ab:x".toList) ("NEW".toList) ("ab".toList)
      ("x".toList) ("ab".toList) ("ab".toList) (fun _ _ => some ("ab".toList)) 0
      (by decide) (by decide) (by decide) (by decide)
      (by decide) (by decide) (by decide) rfl).1 rfl⟩

/-- C9: for every shadow file whose located account entry is locked (the
character after the first colon is '!') and has both field delimiters, but
whose hash value between the '!' and the next ':' is shorter than 2
characters, replace_password treats the entry as malformed and triggers fatal
escalation. -/
theorem replace_password_fatal_on_short_hash (shadow pwd h rest : List Char)
    (cryptFn : List Char → List Char → Option (List Char)) (e : Nat)
    (hsize : shadow.length ≤ SHADOW_BUFFER_LENGTH)
    (hfind : findEntry shadow = some e)
    (hdecomp : shadow.drop e = 't' :: 'n' :: 'g' :: ':' :: '!' :: (h ++ ':' :: rest))
    (hnc : ∀ c ∈ h, c ≠ ':')
    (hshort : h.length < 2) :
    replace_password shadow pwd cryptFn = .fatal := by
  have hsz : ¬(SHADOW_BUFFER_LENGTH < shadow.length) := by omega
  have h1 : strchrFrom shadow e ':' = some (e + 3) := by
    unfold strchrFrom
    rw [hdecomp]
    rw [strchrIdx_cons_ne _ _ _ (by decide), strchrIdx_cons_ne _ _ _ (by decide),
      strchrIdx_cons_ne _ _ _ (by decide)]
    have : strchrIdx (':' :: '!' :: (h ++ ':' :: rest)) ':' = some 0 := by
      simp [strchrIdx]
    rw [this]
    simp
    omega
  have hdrop4 : shadow.drop (e + 3 + 1) = '!' :: (h ++ ':' :: rest) := by
    show shadow.drop (e + 4) = _
    rw [← List.drop_drop 4 e shadow, hdecomp]
    rfl
  have hbang : shadow.getD (e + 3 + 1) nulChar = '!' := by
    show shadow.getD (e + 4) nulChar = '!'
    rw [← getD_drop_eq shadow e 4 nulChar, hdecomp]
    rfl
  have h2 : strchrFrom shadow (e + 3 + 1) ':' = some (e + 5 + h.length) := by
    unfold strchrFrom
    rw [hdrop4, strchrIdx_cons_ne _ _ _ (by decide),
      strchrIdx_append_term h rest ':' hnc]
    simp
    omega
  have hused : e + 5 + h.length - (e + 3 + 1 + 1) = h.length := by omega
  have hle : ¬(SHADOW_ENCRYPTED_LENGTH < h.length) := by
    unfold SHADOW_ENCRYPTED_LENGTH
    omega
  rw [replace_password, if_neg hsz, hfind]
  simp only [h1, hbang]
  rw [if_neg (show ¬('!' = '*') by decide), if_neg (show ¬('!' ≠ '!') by decide)]
  simp only [h2, hused, if_neg hle, if_pos hshort]

/-- C9 (witness): the short-hash theorem applied to the concrete shadow file
"tng:!a:x", whose locked hash value "a" has length 1. -/
theorem replace_password_fatal_on_short_hash_witness :
    ("a".toList).length < 2 ∧
    replace_password ("tng:!a:x".toList) ("NEW".toList) (fun _ _ => none) = .fatal :=
  ⟨by decide,
   replace_password_fatal_on_short_hash ("tng:!a:x".toList) ("NEW".toList) ("a".toList)
     ("x".toList) (fun _ _ => none) 0
     (by decide) (by decide) (by decide) (by decide) (by decide)⟩

/- ===== update_file (init.c lines 955-1019) with create_file (281-302) and
   robust_write (304-315) =====

   The target path's state is `Option FileState` (none = stat fails with
   ENOENT or another stat error, both of which take the update path).  stat's
   st_size of a regular file is its byte length, so size is content.length.
   Syscall outcomes that the code branches on are explicit in `UFEnv`:
     readBytes  - result of read(fd, buffer, st.st_size): none models a read
                  error (negative return), some n models a return of n bytes;
     createOk   - whether open(O_CREAT|O_TRUNC|O_WRONLY)/fchown/fchmod of the
                  temp file all succeed (any failure panics inside create_file);
     writeBytes - result of write(fd, content, content_length) in robust_write:
                  none models an error, some n a short or full write;
     renameOk   - whether rename(tmp_path, path) succeeds.
   The result distinguishes the early return at line 1001 (`skipped`: no temp
   file created, no write, no rename), the full update path (`updated`, with
   the new file state owned root:root, mode 0100444 = S_IFREG|0444, holding
   exactly the content), and panic (`fatal`, which never returns). -/

structure FileState where
  mode : Nat
  uid : Nat
  gid : Nat
  content : List Nat
deriving DecidableEq

structure UFEnv where
  readBytes : Option Nat
  createOk : Bool
  writeBytes : Option Nat
  renameOk : Bool
deriving DecidableEq

inductive UFResult where
  | skipped (file : Option FileState)
  | updated (file : Option FileState)
  | fatal
deriving DecidableEq

def S_IFREG_0444 : Nat := 0o100444  -- S_IFREG | 0444, line 969

/- The early-return condition of update_file, lines 963-1002: stat succeeds,
   mode/owner/size match, open+read succeed and deliver the full size, and
   memcmp finds the bytes equal. -/
def upToDate (env : UFEnv) (file : Option FileState) (content : List Nat) : Bool :=
  match file with
  | none => false
  | some st =>
    (st.mode == S_IFREG_0444) && (st.uid == 0) && (st.gid == 0) &&
    (st.content.length == content.length) &&
    (match env.readBytes with
     | none => false
     | some n => (st.content.length ≤ n) && (st.content == content))

def update_file (env : UFEnv) (file : Option FileState) (content : List Nat) : UFResult :=
  if upToDate env file content then .skipped file
  else if !env.createOk then .fatal            -- create_file panics, lines 287-299
  else
    match env.writeBytes with
    | none => .fatal                           -- robust_write, line 309
    | some n =>
      if n < content.length then .fatal        -- robust_write short write, line 313
      else if !env.renameOk then .fatal        -- rename failure, line 1017
      else .updated (some ⟨S_IFREG_0444, 0, 0, content⟩)

/-- C5 (counterexample): the claim says any short read causes fatal escalation;
but a short read in update_file (init.c lines 992-996) only logs an error and
jumps to the update path: with a matching file whose read returns 0 of 3 bytes
and an otherwise healthy environment, update_file rewrites the file and does
not panic. -/
theorem update_file_short_read_not_fatal :
    (⟨some 0, true, some 3, true⟩ : UFEnv).readBytes = some 0 ∧
    0 < ([1, 2, 3] : List Nat).length ∧
    update_file ⟨some 0, true, some 3, true⟩
      (some ⟨S_IFREG_0444, 0, 0, [1, 2, 3]⟩) [1, 2, 3] ≠ .fatal := by
  decide

/-- C5 (amended): in update_file, any short or failed write, and any failure to
create the temp file or rename it onto the target path, causes fatal
escalation (panic, which never returns); a short or failed read is not fatal
and instead causes the file to be rewritten via the update path. -/
theorem update_file_fatal_on_create_write_rename_failure
    (env : UFEnv) (file : Option FileState) (content : List Nat)
    (hupd : upToDate env file content = false)
    (hfail : env.createOk = false ∨ env.writeBytes = none ∨
             (∃ n, env.writeBytes = some n ∧ n < content.length) ∨
             env.renameOk = false) :
    update_file env file content = .fatal := by
  rcases hfail with hc | hw | ⟨n, hw, hn⟩ | hr
  · simp [update_file, hupd, hc]
  · cases hcb : env.createOk
    · simp [update_file, hupd, hcb]
    · simp [update_file, hupd, hcb, hw]
  · cases hcb : env.createOk
    · simp [update_file, hupd, hcb]
    · simp [update_file, hupd, hcb, hw, hn]
  · cases hcb : env.createOk
    · simp [update_file, hupd, hcb]
    · cases hwb : env.writeBytes with
      | none => simp [update_file, hupd, hcb, hwb]
      | some n =>
        by_cases hn : n < content.length
        · simp [update_file, hupd, hcb, hwb, hn]
        · simp [update_file, hupd, hcb, hwb, hn, hr]

/-- C5 (witness): the fatal-escalation theorem applied to a concrete
environment whose write returns 1 of 3 bytes (a short write). -/
theorem update_file_fatal_on_create_write_rename_failure_witness :
    upToDate ⟨some 3, true, some 1, true⟩ none [1, 2, 3] = false ∧
    (∃ n, (⟨some 3, true, some 1, true⟩ : UFEnv).writeBytes = some n ∧
      n < ([1, 2, 3] : List Nat).length) ∧
    update_file ⟨some 3, true, some 1, true⟩ none [1, 2, 3] = .fatal :=
  ⟨by decide, ⟨1, rfl, by decide⟩,
   update_file_fatal_on_create_write_rename_failure ⟨some 3, true, some 1, true⟩ none
     [1, 2, 3] (by decide) (Or.inr (Or.inr (Or.inl ⟨1, rfl, by decide⟩)))⟩

/-- C6: with read, create, write and rename behaving normally, if a regular
file already exists at the path owned by root:root with mode 0444, size equal
to the content length and bytes equal to the content, update_file performs no
write (early return: no temp file, no rename); and whenever a call performs
the update, an immediately following call with the same content is a no-op,
so calling update_file twice with the same content performs the underlying
write exactly once. -/
theorem update_file_idempotent (env : UFEnv) (file : Option FileState)
    (content : List Nat) (w2 : Option FileState)
    (hread : env.readBytes = some content.length)
    (hcreate : env.createOk = true)
    (hwrite : env.writeBytes = some content.length)
    (hrename : env.renameOk = true) :
    (file = some ⟨S_IFREG_0444, 0, 0, content⟩ →
      update_file env file content = .skipped file) ∧
    (update_file env file content = .updated w2 →
      update_file env w2 content = .skipped w2) := by
  have hu2 : upToDate env (some ⟨S_IFREG_0444, 0, 0, content⟩) content = true := by
    simp [upToDate, hread]
  constructor
  · intro hfile
    subst hfile
    simp [update_file, hu2]
  · intro hupd
    by_cases hu : upToDate env file content
    · rw [update_file, if_pos hu] at hupd
      exact absurd hupd (by simp)
    · rw [update_file, if_neg hu, hcreate, hwrite] at hupd
      simp only [Bool.not_true, Bool.false_eq_true, if_false, lt_irrefl, hrename] at hupd
      have hw2 : w2 = some ⟨S_IFREG_0444, 0, 0, content⟩ := by
        cases hupd
        rfl
      subst hw2
      simp [update_file, hu2]

/-- C6 (witness): the idempotence theorem applied concretely: a first call on a
missing file performs the update, and the second call with the same content is
a skipped no-op. -/
theorem update_file_idempotent_witness :
    update_file ⟨some 3, true, some 3, true⟩ none [1, 2, 3] =
      .updated (some ⟨S_IFREG_0444, 0, 0, [1, 2, 3]⟩) ∧
    update_file ⟨some 3, true, some 3, true⟩ (some ⟨S_IFREG_0444, 0, 0, [1, 2, 3]⟩) [1, 2, 3] =
      .skipped (some ⟨S_IFREG_0444, 0, 0, [1, 2, 3]⟩) :=
  ⟨by decide,
   (update_file_idempotent ⟨some 3, true, some 3, true⟩ none [1, 2, 3]
      (some ⟨S_IFREG_0444, 0, 0, [1, 2, 3]⟩) rfl rfl rfl rfl).2 (by decide)⟩

/- ===== robust_mount (init.c lines 202-279) =====

   The nondeterministic mount outcomes are a function `att` from the attempt
   number (the C `retries` counter, which indexes attempts from 0) to what
   mnt_context_mount reports: success, -MNT_ERR_NOSOURCE ("source device not
   found"), or any other error.  The C retry loop is unbounded (goto retry);
   the Lean model carries explicit fuel and returns `outOfFuel` when it runs
   out, so termination of the model never hides divergence of the C loop: any
   theorem about a successful run quantifies over sufficient fuel.  The event
   trace records context creation (mnt_new_context at the retry label),
   context disposal, the fixed usleep(500 * 1000) backoff, and the final
   retry-count log line (printed only when retries > 0, line 276). -/

inductive MountOutcome where
  | ok
  | noSource
  | otherErr
deriving DecidableEq

inductive RMEvent where
  | newCtx
  | freeCtx
  | sleepUsec (usec : Nat)
  | logRetryCount (n : Nat)
deriving DecidableEq

inductive RMResult where
  | mounted (retries : Nat)
  | fatal
  | outOfFuel
deriving DecidableEq

def robust_mount (att : Nat → MountOutcome) : Nat → Nat → List RMEvent × RMResult
  | 0, _ => ([], .outOfFuel)
  | fuel + 1, r =>
    match att r with
    | .ok =>
      -- success: free the context, log the retry count when nonzero, lines 274-278
      ([.newCtx, .freeCtx] ++ (if r = 0 then [] else [.logRetryCount r]), .mounted r)
    | .noSource =>
      -- device missing: free context, sleep 500 msec, ++retries, goto retry,
      -- lines 252-267
      let rest := robust_mount att fuel (r + 1)
      ([.newCtx, .freeCtx, .sleepUsec 500000] ++ rest.1, rest.2)
    | .otherErr => ([.newCtx], .fatal)   -- panic, line 271

/- The events produced by n retry rounds: each builds a fresh context and
   sleeps the fixed 500-millisecond backoff. -/
def retryTrace : Nat → List RMEvent
  | 0 => []
  | n + 1 => [.newCtx, .freeCtx, .sleepUsec 500000] ++ retryTrace n

theorem robust_mount_go (att : Nat → MountOutcome) (N : Nat) :
    ∀ r fuel, (∀ i, i < N → att (r + i) = .noSource) → att (r + N) = .ok → N < fuel →
    robust_mount att fuel r =
      (retryTrace N ++ [.newCtx, .freeCtx] ++
        (if r + N = 0 then [] else [.logRetryCount (r + N)]), .mounted (r + N)) := by
  induction N with
  | zero =>
    intro r fuel _ hok hfuel
    cases fuel with
    | zero => omega
    | succ m =>
      rw [Nat.add_zero] at hok
      simp [robust_mount, hok, retryTrace]
  | succ n ih =>
    intro r fuel hns hok hfuel
    cases fuel with
    | zero => omega
    | succ m =>
      have h0 : att r = .noSource := by
        have := hns 0 (by omega)
        simpa using this
      have ihr := ih (r + 1) m
        (fun i hi => by
          have := hns (i + 1) (by omega)
          rw [show r + (i + 1) = r + 1 + i from by omega] at this
          exact this)
        (by rw [show r + 1 + n = r + (n + 1) from by omega]; exact hok)
        (by omega)
      simp only [robust_mount, h0, ihr]
      have harith : r + 1 + n = r + (n + 1) := by omega
      rw [harith]
      have hne : ¬(r + (n + 1) = 0) := by omega
      rw [if_neg hne]
      simp [retryTrace]

/-- C7: every mount attempt failing with "source device not found" builds a
fresh mount context, sleeps the fixed 500-millisecond backoff, increments the
retry counter and re-attempts, with no bound on the number of retries (the
theorem holds for every N); success after N retries yields exactly N backoff
rounds and logs the retry count exactly when it is nonzero; and any other
mount error on the first attempt causes immediate fatal escalation with no
retry and no backoff. -/
theorem robust_mount_retry_protocol (att att2 : Nat → MountOutcome) (N fuel fuel2 : Nat)
    (hns : ∀ i, i < N → att i = .noSource) (hok : att N = .ok) (hfuel : N < fuel)
    (herr : att2 0 = .otherErr) (hfuel2 : 0 < fuel2) :
    robust_mount att fuel 0 =
      (retryTrace N ++ [.newCtx, .freeCtx] ++
        (if N = 0 then [] else [.logRetryCount N]), .mounted N) ∧
    robust_mount att2 fuel2 0 = ([.newCtx], .fatal) := by
  constructor
  · have := robust_mount_go att N 0 fuel (fun i hi => by simpa using hns i hi)
      (by simpa using hok) hfuel
    simpa using this
  · cases fuel2 with
    | zero => omega
    | succ m => simp [robust_mount, herr]

/-- C7 (witness): the retry-protocol theorem applied to a source missing for
the first two attempts and present on the third (two backoff rounds, retry
count 2 logged), and to a source failing with a different error on the first
attempt (immediate fatal, no retry). -/
theorem robust_mount_retry_protocol_witness :
    (∀ i, i < 2 → (fun i => if i < 2 then MountOutcome.noSource else .ok) i =
      MountOutcome.noSource) ∧
    robust_mount (fun i => if i < 2 then MountOutcome.noSource else .ok) 3 0 =
      (retryTrace 2 ++ [.newCtx, .freeCtx] ++
        (if (2 : Nat) = 0 then [] else [.logRetryCount 2]), .mounted 2) ∧
    robust_mount (fun _ => MountOutcome.otherErr) 1 0 = ([.newCtx], .fatal) :=
  ⟨by decide,
   (robust_mount_retry_protocol (fun i => if i < 2 then .noSource else .ok)
      (fun _ => .otherErr) 2 3 1 (by decide) (by decide) (by decide) rfl
      (by decide)).1,
   (robust_mount_retry_protocol (fun i => if i < 2 then .noSource else .ok)
      (fun _ => .otherErr) 2 3 1 (by decide) (by decide) (by decide) rfl
      (by decide)).2⟩

/- ===== read_cmdline (init.c lines 1021-1065) =====

   The kernel command line (the bytes read from /proc/cmdline) is split by
   strtok with delimiters "\r\n\t " into nonempty tokens; each token is then
   matched with strncmp against "root=", "rootfstype=" and "init=", and on a
   match the corresponding output pointer is overwritten with the value part
   of the token. -/

def isDelim (c : Char) : Bool := c == '\r' || c == '\n' || c == '\t' || c == ' '

theorem dropWhile_length_le (p : Char → Bool) (l : List Char) :
    (l.dropWhile p).length ≤ l.length := by
  induction l with
  | nil => simp
  | cons c rest ih =>
    by_cases h : p c
    · simp only [List.dropWhile_cons, h, if_true, List.length_cons]
      omega
    · simp [List.dropWhile_cons, h]

/- strtok model: the maximal non-delimiter runs of the input, in order. -/
def tokens : List Char → List (List Char)
  | [] => []
  | c :: rest =>
    if isDelim c then tokens rest
    else (c :: rest.takeWhile (fun x => !isDelim x)) ::
      tokens (rest.dropWhile (fun x => !isDelim x))
termination_by l => l.length
decreasing_by
  · simp only [List.length_cons]
    omega
  · simp only [List.length_cons]
    have := dropWhile_length_le (fun x => !isDelim x) rest
    omega

def rootKey : List Char := ['r', 'o', 'o', 't', '=']

def rootfstypeKey : List Char := ['r', 'o', 'o', 't', 'f', 's', 't', 'y', 'p', 'e', '=']

def initKey : List Char := ['i', 'n', 'i', 't', '=']

structure CmdlineOpts where
  root : Option (List Char)
  rootfstype : Option (List Char)
  initProg : Option (List Char)
deriving DecidableEq

/- One iteration of the option loop, lines 1054-1064. -/
def applyTok (acc : CmdlineOpts) (t : List Char) : CmdlineOpts :=
  if rootKey.isPrefixOf t then { acc with root := some (t.drop 5) }
  else if rootfstypeKey.isPrefixOf t then { acc with rootfstype := some (t.drop 11) }
  else if initKey.isPrefixOf t then { acc with initProg := some (t.drop 5) }
  else acc

def read_cmdline (s : List Char) : CmdlineOpts :=
  (tokens s).foldl applyTok ⟨none, none, none⟩

/- The three key prefixes are mutually exclusive on any token. -/

theorem not_root_of_fstype (t : List Char) (h : rootfstypeKey.isPrefixOf t = true) :
    rootKey.isPrefixOf t = false := by
  rcases List.isPrefixOf_iff_prefix.mp h with ⟨t', rfl⟩
  rfl

theorem not_root_of_init (t : List Char) (h : initKey.isPrefixOf t = true) :
    rootKey.isPrefixOf t = false := by
  rcases List.isPrefixOf_iff_prefix.mp h with ⟨t', rfl⟩
  rfl

theorem not_fstype_of_init (t : List Char) (h : initKey.isPrefixOf t = true) :
    rootfstypeKey.isPrefixOf t = false := by
  rcases List.isPrefixOf_iff_prefix.mp h with ⟨t', rfl⟩
  rfl

/- Field-preservation and field-update facts for one loop iteration. -/

theorem not_fstype_of_root (t : List Char) (h : rootKey.isPrefixOf t = true) :
    rootfstypeKey.isPrefixOf t = false := by
  rcases List.isPrefixOf_iff_prefix.mp h with ⟨t', rfl⟩
  rfl

theorem applyTok_root_eq (a : CmdlineOpts) (t : List Char) :
    (applyTok a t).root =
      if rootKey.isPrefixOf t then some (t.drop 5) else a.root := by
  by_cases hr : rootKey.isPrefixOf t
  · simp [applyTok, hr]
  · by_cases hf : rootfstypeKey.isPrefixOf t
    · simp [applyTok, hr, hf]
    · by_cases hi : initKey.isPrefixOf t
      · simp [applyTok, hr, hf, hi]
      · simp [applyTok, hr, hf, hi]

theorem applyTok_fstype_eq (a : CmdlineOpts) (t : List Char) :
    (applyTok a t).rootfstype =
      if rootfstypeKey.isPrefixOf t then some (t.drop 11) else a.rootfstype := by
  by_cases hr : rootKey.isPrefixOf t
  · simp [applyTok, hr, not_fstype_of_root t hr]
  · by_cases hf : rootfstypeKey.isPrefixOf t
    · simp [applyTok, hr, hf]
    · by_cases hi : initKey.isPrefixOf t
      · simp [applyTok, hr, hf, hi]
      · simp [applyTok, hr, hf, hi]

theorem applyTok_initProg_eq (a : CmdlineOpts) (t : List Char) :
    (applyTok a t).initProg =
      if initKey.isPrefixOf t then some (t.drop 5) else a.initProg := by
  by_cases hi : initKey.isPrefixOf t
  · simp [applyTok, hi, not_root_of_init t hi, not_fstype_of_init t hi]
  · by_cases hr : rootKey.isPrefixOf t
    · simp [applyTok, hr, hi]
    · by_cases hf : rootfstypeKey.isPrefixOf t
      · simp [applyTok, hr, hf, hi]
      · simp [applyTok, hr, hf, hi]

/- The option loop is a left fold; the final value of each key is decided by
   the last matching token, i.e. the first match in the reversed token list. -/

theorem foldl_applyTok_root (ts : List (List Char)) (acc : CmdlineOpts) :
    (ts.foldl applyTok acc).root =
      match ts.reverse.find? (fun t => rootKey.isPrefixOf t) with
      | some t => some (t.drop 5)
      | none => acc.root := by
  induction ts using List.reverseRecOn with
  | nil => rfl
  | append_singleton ts t ih =>
    rw [List.foldl_append, List.foldl_cons, List.foldl_nil, applyTok_root_eq]
    have hrev : (ts ++ [t]).reverse = t :: ts.reverse := by simp
    rw [hrev]
    by_cases hp : rootKey.isPrefixOf t
    · simp [List.find?_cons, hp]
    · simp [List.find?_cons, hp, ih]

theorem foldl_applyTok_fstype (ts : List (List Char)) (acc : CmdlineOpts) :
    (ts.foldl applyTok acc).rootfstype =
      match ts.reverse.find? (fun t => rootfstypeKey.isPrefixOf t) with
      | some t => some (t.drop 11)
      | none => acc.rootfstype := by
  induction ts using List.reverseRecOn with
  | nil => rfl
  | append_singleton ts t ih =>
    rw [List.foldl_append, List.foldl_cons, List.foldl_nil, applyTok_fstype_eq]
    have hrev : (ts ++ [t]).reverse = t :: ts.reverse := by simp
    rw [hrev]
    by_cases hp : rootfstypeKey.isPrefixOf t
    · simp [List.find?_cons, hp]
    · simp [List.find?_cons, hp, ih]

theorem foldl_applyTok_initProg (ts : List (List Char)) (acc : CmdlineOpts) :
    (ts.foldl applyTok acc).initProg =
      match ts.reverse.find? (fun t => initKey.isPrefixOf t) with
      | some t => some (t.drop 5)
      | none => acc.initProg := by
  induction ts using List.reverseRecOn with
  | nil => rfl
  | append_singleton ts t ih =>
    rw [List.foldl_append, List.foldl_cons, List.foldl_nil, applyTok_initProg_eq]
    have hrev : (ts ++ [t]).reverse = t :: ts.reverse := by simp
    rw [hrev]
    by_cases hp : initKey.isPrefixOf t
    · simp [List.find?_cons, hp]
    · simp [List.find?_cons, hp, ih]

/-- C10: for every kernel command line, the value read_cmdline returns for each
recognized key (root=, rootfstype=, init=) is the value of the LAST token of
the command line carrying that key (the first match in the reversed token
list), with earlier occurrences silently overwritten; when no token carries
the key the result is the none sentinel. -/
theorem read_cmdline_last_occurrence_wins (s : List Char) :
    (read_cmdline s).root =
      ((tokens s).reverse.find? (fun t => rootKey.isPrefixOf t)).map (fun t => t.drop 5) ∧
    (read_cmdline s).rootfstype =
      ((tokens s).reverse.find? (fun t => rootfstypeKey.isPrefixOf t)).map (fun t => t.drop 11) ∧
    (read_cmdline s).initProg =
      ((tokens s).reverse.find? (fun t => initKey.isPrefixOf t)).map (fun t => t.drop 5) := by
  refine ⟨?_, ?_, ?_⟩
  · rw [read_cmdline, foldl_applyTok_root]
    cases (tokens s).reverse.find? (fun t => rootKey.isPrefixOf t) <;> rfl
  · rw [read_cmdline, foldl_applyTok_fstype]
    cases (tokens s).reverse.find? (fun t => rootfstypeKey.isPrefixOf t) <;> rfl
  · rw [read_cmdline, foldl_applyTok_initProg]
    cases (tokens s).reverse.find? (fun t => initKey.isPrefixOf t) <;> rfl
